import Mathlib

/-!
# Verification of the deterministic task-identification algorithm

This file formalises the task-id engine described in the repository's
specification (`generate_task_ids` and the registry hook, whose
implementation lives outside the shipped sources — only its test-suite is
shipped — so the engine is modelled from the specification text), together
with the flow-run HTTP handlers from `src/prefect/orion/api/flow_runs.py`.

The specification's `digest` is a fixed-width hash of an ordered sequence of
byte strings; hash collisions are outside the spec's interest (it explicitly
renounces cryptographic collision resistance and reasons as if digests of
distinct inputs are distinct).  We therefore model digests as a free algebra:
`Digest.cons`/`Digest.nil` build an injective sequence constructor and
`Digest.str` embeds byte strings, so `digest parts` is injective in `parts`
and order/separator sensitive, exactly the interface §4.1 demands.
-/

/-- Free digest values: an injective model of the fixed-width hash of §4.1. -/
inductive Digest : Type where
  | str : String → Digest
  | nil : Digest
  | cons : Digest → Digest → Digest
deriving DecidableEq

/-- The hash `digest parts` of an ordered sequence of parts (§4.1),
modelled injectively as the right-fold of the sequence constructor. -/
def digest (parts : List Digest) : Digest :=
  parts.foldr Digest.cons Digest.nil

theorem digest_inj : ∀ {l l' : List Digest}, digest l = digest l' → l = l'
  | [], [], _ => rfl
  | [], _ :: _, h => by simp [digest] at h
  | _ :: _, [], h => by simp [digest] at h
  | a :: l, b :: l', h => by
    have h' : a = b ∧ digest l = digest l' := by
      simpa [digest, Digest.cons.injEq] using h
    rw [h'.1, digest_inj h'.2]

/-- Lexicographic boolean comparison of character lists (kernel-computable). -/
def charsLeB : List Char → List Char → Bool
  | [], _ => true
  | _ :: _, [] => false
  | a :: as, b :: bs => if a = b then charsLeB as bs else decide (a < b)

theorem charsLeB_refl : ∀ l : List Char, charsLeB l l = true
  | [] => rfl
  | a :: as => by simp [charsLeB, charsLeB_refl as]

theorem charsLeB_total : ∀ l l' : List Char, charsLeB l l' = true ∨ charsLeB l' l = true
  | [], _ => Or.inl rfl
  | _ :: _, [] => Or.inr rfl
  | a :: as, b :: bs => by
    by_cases hab : a = b
    · subst hab
      rcases charsLeB_total as bs with h | h
      · exact Or.inl (by simp [charsLeB, h])
      · exact Or.inr (by simp [charsLeB, h])
    · rcases lt_or_gt_of_ne hab with h | h
      · exact Or.inl (by simp [charsLeB, hab, h])
      · exact Or.inr (by simp [charsLeB, Ne.symm hab, h])

theorem charsLeB_antisymm :
    ∀ l l' : List Char, charsLeB l l' = true → charsLeB l' l = true → l = l'
  | [], [], _, _ => rfl
  | [], _ :: _, _, h2 => by simp [charsLeB] at h2
  | _ :: _, [], h1, _ => by simp [charsLeB] at h1
  | a :: as, b :: bs, h1, h2 => by
    by_cases hab : a = b
    · subst hab
      simp only [charsLeB, if_pos rfl] at h1 h2
      rw [charsLeB_antisymm as bs h1 h2]
    · simp only [charsLeB, if_neg hab, if_neg (Ne.symm hab), decide_eq_true_eq] at h1 h2
      exact absurd h2 (lt_asymm h1)

theorem charsLeB_trans :
    ∀ l1 l2 l3 : List Char, charsLeB l1 l2 = true → charsLeB l2 l3 = true →
      charsLeB l1 l3 = true
  | [], _, _, _, _ => rfl
  | _ :: _, [], _, h1, _ => by simp [charsLeB] at h1
  | _ :: _, _ :: _, [], _, h2 => by simp [charsLeB] at h2
  | a :: as, b :: bs, c :: cs, h1, h2 => by
    by_cases hab : a = b <;> by_cases hbc : b = c
    · subst hab; subst hbc
      simp only [charsLeB, if_pos rfl] at h1 h2 ⊢
      exact charsLeB_trans as bs cs h1 h2
    · subst hab
      simp only [charsLeB, if_pos rfl, if_neg hbc] at h1 h2 ⊢
      exact h2
    · subst hbc
      simp only [charsLeB, if_neg hab] at h1 h2 ⊢
      exact h1
    · simp only [charsLeB, if_neg hab, if_neg hbc, decide_eq_true_eq] at h1 h2
      have hac : a < c := lt_trans h1 h2
      simp [charsLeB, ne_of_lt hac, hac]

/-- Boolean total order on strings, by their character data. -/
def strLeB (a b : String) : Bool := charsLeB a.data b.data

theorem strLeB_refl (a : String) : strLeB a a = true := charsLeB_refl a.data

theorem strLeB_total (a b : String) : strLeB a b = true ∨ strLeB b a = true :=
  charsLeB_total a.data b.data

theorem strLeB_antisymm {a b : String} (h1 : strLeB a b = true)
    (h2 : strLeB b a = true) : a = b := by
  have h := charsLeB_antisymm a.data b.data h1 h2
  exact String.toList_inj.mp h

theorem strLeB_trans {a b c : String} (h1 : strLeB a b = true)
    (h2 : strLeB b c = true) : strLeB a c = true :=
  charsLeB_trans a.data b.data c.data h1 h2

/-- A total order on digests (the engine sorts neighbour id lists by the
current id values, §4.4; raw byte strings compare lexicographically). -/
def Digest.leB : Digest → Digest → Bool
  | .str a, .str b => strLeB a b
  | .str _, .nil => true
  | .str _, .cons _ _ => true
  | .nil, .str _ => false
  | .nil, .nil => true
  | .nil, .cons _ _ => true
  | .cons _ _, .str _ => false
  | .cons _ _, .nil => false
  | .cons a b, .cons c d => if a = c then Digest.leB b d else Digest.leB a c

theorem Digest.leB_refl : ∀ a : Digest, Digest.leB a a = true
  | .str a => by simp [Digest.leB, strLeB_refl]
  | .nil => rfl
  | .cons a b => by simp [Digest.leB, Digest.leB_refl b]

theorem Digest.leB_total : ∀ a b : Digest, Digest.leB a b = true ∨ Digest.leB b a = true
  | .str a, .str b => by
    rcases strLeB_total a b with h | h
    · exact Or.inl (by simpa [Digest.leB] using h)
    · exact Or.inr (by simpa [Digest.leB] using h)
  | .str _, .nil => Or.inl rfl
  | .str _, .cons _ _ => Or.inl rfl
  | .nil, .str _ => Or.inr rfl
  | .nil, .nil => Or.inl rfl
  | .nil, .cons _ _ => Or.inl rfl
  | .cons _ _, .str _ => Or.inr rfl
  | .cons _ _, .nil => Or.inr rfl
  | .cons a b, .cons c d => by
    by_cases hac : a = c
    · subst hac
      rcases Digest.leB_total b d with h | h
      · exact Or.inl (by simp [Digest.leB, h])
      · exact Or.inr (by simp [Digest.leB, h])
    · rcases Digest.leB_total a c with h | h
      · exact Or.inl (by simp [Digest.leB, hac, h])
      · exact Or.inr (by simp [Digest.leB, Ne.symm hac, h])

theorem Digest.leB_antisymm :
    ∀ a b : Digest, Digest.leB a b = true → Digest.leB b a = true → a = b
  | .str a, .str b, h1, h2 => by
    simp only [Digest.leB] at h1 h2
    exact congrArg Digest.str (strLeB_antisymm h1 h2)
  | .str _, .nil, _, h2 => by simp [Digest.leB] at h2
  | .str _, .cons _ _, _, h2 => by simp [Digest.leB] at h2
  | .nil, .str _, h1, _ => by simp [Digest.leB] at h1
  | .nil, .nil, _, _ => rfl
  | .nil, .cons _ _, _, h2 => by simp [Digest.leB] at h2
  | .cons _ _, .str _, h1, _ => by simp [Digest.leB] at h1
  | .cons _ _, .nil, h1, _ => by simp [Digest.leB] at h1
  | .cons a b, .cons c d, h1, h2 => by
    by_cases hac : a = c
    · subst hac
      simp only [Digest.leB, if_pos rfl] at h1 h2
      exact congrArg (Digest.cons a) (Digest.leB_antisymm b d h1 h2)
    · simp only [Digest.leB, if_neg hac, if_neg (Ne.symm hac)] at h1 h2
      exact absurd (Digest.leB_antisymm a c h1 h2) hac

theorem Digest.leB_trans :
    ∀ a b c : Digest, Digest.leB a b = true → Digest.leB b c = true →
      Digest.leB a c = true
  | .str x, .str y, .str z, h1, h2 => by
    simp only [Digest.leB] at h1 h2 ⊢
    exact strLeB_trans h1 h2
  | .str _, _, .nil, _, _ => rfl
  | .str _, _, .cons _ _, _, _ => rfl
  | .str _, .nil, .str _, _, h2 => by simp [Digest.leB] at h2
  | .str _, .cons _ _, .str _, _, h2 => by simp [Digest.leB] at h2
  | .nil, .str _, _, h1, _ => by simp [Digest.leB] at h1
  | .nil, .nil, c, _, h2 => h2
  | .nil, .cons _ _, .str _, _, h2 => by simp [Digest.leB] at h2
  | .nil, .cons _ _, .nil, _, h2 => by simp [Digest.leB] at h2
  | .nil, .cons _ _, .cons _ _, _, _ => rfl
  | .cons _ _, .str _, _, h1, _ => by simp [Digest.leB] at h1
  | .cons _ _, .nil, _, h1, _ => by simp [Digest.leB] at h1
  | .cons _ _, .cons _ _, .str _, _, h2 => by simp [Digest.leB] at h2
  | .cons _ _, .cons _ _, .nil, _, h2 => by simp [Digest.leB] at h2
  | .cons a b, .cons c d, .cons e f, h1, h2 => by
    by_cases hac : a = c <;> by_cases hce : c = e
    · subst hac; subst hce
      simp only [Digest.leB, if_pos rfl] at h1 h2 ⊢
      exact Digest.leB_trans b d f h1 h2
    · subst hac
      simp only [Digest.leB, if_pos rfl, if_neg hce] at h1 h2 ⊢
      exact h2
    · subst hce
      simp only [Digest.leB, if_neg hac] at h1 h2 ⊢
      exact h1
    · simp only [Digest.leB, if_neg hac, if_neg hce] at h1 h2
      by_cases hae : a = e
      · subst hae
        exact absurd (Digest.leB_antisymm a c h1 h2) hac
      · simp only [Digest.leB, if_neg hae]
        exact Digest.leB_trans a c e h1 h2

/-- The order on digests as a relation, for `List.insertionSort`. -/
def dle (a b : Digest) : Prop := Digest.leB a b = true

instance : DecidableRel dle := fun a b => instDecidableEqBool (Digest.leB a b) true

instance : IsTotal Digest dle := ⟨Digest.leB_total⟩

instance : IsTrans Digest dle := ⟨Digest.leB_trans⟩

instance : IsAntisymm Digest dle := ⟨Digest.leB_antisymm⟩

/-- Sort a list of digests (the spec materialises every neighbour set into a
list sorted by current id values before hashing, §4.4). -/
def sortD (l : List Digest) : List Digest := l.insertionSort dle

theorem sortD_congr {l l' : List Digest} (h : l.Perm l') : sortD l = sortD l' :=
  List.eq_of_perm_of_sorted
    (((l.perm_insertionSort dle).trans h).trans (l'.perm_insertionSort dle).symm)
    (List.sorted_insertionSort dle l) (List.sorted_insertionSort dle l')

theorem sortD_eq_iff_perm {l l' : List Digest} : sortD l = sortD l' ↔ l.Perm l' := by
  constructor
  · intro h
    have p2 : (sortD l).Perm l' := by
      rw [h]; exact l'.perm_insertionSort dle
    exact (l.perm_insertionSort dle).symm.trans p2
  · exact sortD_congr

/-- Sort a list of task handles by their numeric order. -/
def sortNat (l : List Nat) : List Nat := l.insertionSort (· ≤ ·)

theorem sortNat_congr {l l' : List Nat} (h : l.Perm l') : sortNat l = sortNat l' :=
  List.eq_of_perm_of_sorted
    (((l.perm_insertionSort _).trans h).trans (l'.perm_insertionSort _).symm)
    (List.sorted_insertionSort _ l) (List.sorted_insertionSort _ l')

theorem sortNat_eq_iff_perm {l l' : List Nat} : sortNat l = sortNat l' ↔ l.Perm l' := by
  constructor
  · intro h
    have p2 : (sortNat l).Perm l' := by
      rw [h]; exact l'.perm_insertionSort _
    exact (l.perm_insertionSort _).symm.trans p2
  · exact sortNat_congr

/-!
## The data model (§3) and the identifier engine (§4.4)

Modelled from the spec: the engine's implementation (`prefect.build.registry.
generate_task_ids`) is not among the shipped sources (only its test-suite is),
so every definition below follows §4.2–§4.4 of the specification.  Tasks are
opaque handles (`Nat`) carrying a self-fingerprint string; a flow is
`(project, name, version, tasks, edges)` plus the fingerprint assignment.
-/

/-- Position of the first occurrence of `a` in `l` (0 when absent). -/
def idxOf [DecidableEq α] (a : α) : List α → Nat
  | [] => 0
  | b :: l => if b = a then 0 else idxOf a l + 1

theorem idxOf_inj [DecidableEq α] {a b : α} :
    ∀ {l : List α}, a ∈ l → b ∈ l → (idxOf a l = idxOf b l ↔ a = b)
  | [], ha, _ => absurd ha (List.not_mem_nil a)
  | c :: l, ha, hb => by
    by_cases hca : c = a <;> by_cases hcb : c = b
    · subst hca
      subst hcb
      simp
    · have hb' : b ∈ l := by
        rcases List.mem_cons.mp hb with h' | h'
        · exact absurd h'.symm hcb
        · exact h'
      subst hca
      simp only [idxOf, if_pos rfl, if_neg hcb]
      constructor
      · intro h
        exact absurd h.symm (Nat.succ_ne_zero _)
      · intro h
        exact absurd (h ▸ rfl) hcb
    · have ha' : a ∈ l := by
        rcases List.mem_cons.mp ha with h' | h'
        · exact absurd h'.symm hca
        · exact h'
      subst hcb
      simp only [idxOf, if_pos rfl, if_neg hca]
      constructor
      · intro h
        exact absurd h (Nat.succ_ne_zero _)
      · intro h
        exact absurd (h ▸ rfl) hca
    · have ha' : a ∈ l := by
        rcases List.mem_cons.mp ha with h' | h'
        · exact absurd h'.symm hca
        · exact h'
      have hb' : b ∈ l := by
        rcases List.mem_cons.mp hb with h' | h'
        · exact absurd h'.symm hcb
        · exact h'
      simp only [idxOf, if_neg hca, if_neg hcb, Nat.succ_inj]
      exact idxOf_inj ha' hb'


namespace Prefect

/-- A flow: `(project, name, version, tasks, edges)` (§3), with `fp t` the
self-fingerprint of task `t` (§4.2; two tasks are semantically identical
exactly when their fingerprints coincide). -/
structure Flow where
  project : String
  name : String
  version : String
  tasks : List Nat
  edges : List (Nat × Nat)
  fp : Nat → String

/-- Upstream neighbours of a task, read off the edge set. -/
def Flow.upstream (F : Flow) (t : Nat) : List Nat :=
  (F.edges.filter (fun e => decide (e.2 = t))).map (fun e => e.1)

/-- Downstream neighbours of a task, read off the edge set. -/
def Flow.downstream (F : Flow) (t : Nat) : List Nat :=
  (F.edges.filter (fun e => decide (e.1 = t))).map (fun e => e.2)

/-- All direct neighbours (upstream ∪ downstream), for step 4's concentric
diffusion. -/
def Flow.nbrs (F : Flow) (t : Nat) : List Nat :=
  F.upstream t ++ F.downstream t

/-- Modelled from the spec: `flow_fp(flow) = digest([project, name])` (§4.3);
version is deliberately excluded. -/
def flow_fp (F : Flow) : Digest :=
  digest [Digest.str F.project, Digest.str F.name]

/-- Separator tags for the five steps (§4.4 uses "↑", "↓", "∘", "#"). -/
def tagUp : Digest := Digest.str ("^")

def tagDown : Digest := Digest.str ("v")

def tagRound : Digest := Digest.str ("o")

def tagHash : Digest := Digest.str ("#")

/-- Modelled from the spec: step 1 — `id_1(t) = digest([F, S(t)])` (§4.4). -/
def id_one (F : Flow) (t : Nat) : Digest :=
  digest [flow_fp F, Digest.str (F.fp t)]

/-- Modelled from the spec: step 2 — forward diffusion in topological order,
`id_2(t) = digest([F, S(t), "↑", U…])` with `U` the sorted list of the (final)
step-2 ids of `t`'s upstream neighbours (§4.4).  The topological traversal is
realised as fuel-bounded recursion: with fuel `≥` the number of tasks the
recursion reproduces the topological computation on any DAG. -/
def id_two (F : Flow) : Nat → Nat → Digest
  | 0, t => digest [flow_fp F, Digest.str (F.fp t), tagUp]
  | fuel + 1, t =>
    digest ([flow_fp F, Digest.str (F.fp t), tagUp]
      ++ sortD ((F.upstream t).map (id_two F fuel)))

/-- Modelled from the spec: step 3 — backward diffusion in reverse topological
order, `id_3(t) = digest([id_2(t), "↓", D…])` with `D` the sorted list of the
step-3 ids of `t`'s downstream neighbours (§4.4); `f` is the mapping produced
by the previous step. -/
def id_three (F : Flow) (f : Nat → Digest) : Nat → Nat → Digest
  | 0, t => digest [f t, tagDown]
  | fuel + 1, t =>
    digest ([f t, tagDown]
      ++ sortD ((F.downstream t).map (id_three F f fuel)))

/-- Number of unique id values over the flow's tasks. -/
def uniqueCount (F : Flow) (f : Nat → Digest) : Nat :=
  ((F.tasks.map f).dedup).length

/-- The mapping discriminates fully: as many unique ids as tasks (§4.4's
early-exit condition). -/
def converged (F : Flow) (f : Nat → Digest) : Prop :=
  uniqueCount F f = F.tasks.length

instance (F : Flow) (f : Nat → Digest) : Decidable (converged F f) :=
  Nat.decEq _ _

/-- Modelled from the spec: one synchronous round of step 4's concentric
neighbour diffusion — `id_4'(t) = digest([id_4(t), "∘", sorted ids of all
direct neighbours])`, all tasks updated simultaneously (§4.4). -/
def round_step (F : Flow) (f : Nat → Digest) (t : Nat) : Digest :=
  digest ([f t, tagRound] ++ sortD ((F.nbrs t).map f))

/-- Modelled from the spec: step 4's bounded fixed point — repeat rounds until
no further refinement of the id partition takes place (with the injective
digest model, raw values change each round, so "no id changes" is read as the
discrimination fixed point: the unique-id count stops growing), until full
convergence, or for at most `N = number of tasks` rounds (§4.4). -/
def loop_step (F : Flow) : Nat → (Nat → Digest) → Nat → Digest
  | 0, f => f
  | fuel + 1, f =>
    if converged F f then f
    else
      if uniqueCount F (round_step F f) = uniqueCount F f then round_step F f
      else loop_step F fuel (round_step F f)

/-- An injective digest encoding of `integer(i)` for step 5's rank suffix. -/
def natD : Nat → Digest
  | 0 => Digest.nil
  | n + 1 => Digest.cons Digest.nil (natD n)

/-- Modelled from the spec: step 5 — duplicate disambiguation.  Tasks are
partitioned by current id; in every partition of size > 1 each task receives
`id_5(t_i) = digest([id_4(t_i), "#", integer(i)])` where `i` is the task's
rank in a deterministic canonical order of the partition (§4.4).  The members
of such a partition are structurally symmetric, so the model realises the
canonical order as the numeric order on task handles, which is deterministic
and independent of the iteration order of the task and edge collections. -/
def disambiguate (F : Flow) (f : Nat → Digest) (t : Nat) : Digest :=
  if (F.tasks.filter (fun u => decide (f u = f t))).length ≤ 1 then f t
  else
    digest [f t, tagHash,
      natD (idxOf t (sortNat (F.tasks.filter (fun u => decide (f u = f t)))))]

/-- The mapping after step 1. -/
def stage1 (F : Flow) : Nat → Digest := id_one F

/-- The mapping after step 2 (skipped — i.e. copied — once converged, §4.4
early exit). -/
def stage2 (F : Flow) : Nat → Digest :=
  if converged F (stage1 F) then stage1 F else id_two F F.tasks.length

/-- The mapping after step 3. -/
def stage3 (F : Flow) : Nat → Digest :=
  if converged F (stage2 F) then stage2 F else id_three F (stage2 F) F.tasks.length

/-- The mapping after step 4. -/
def stage4 (F : Flow) : Nat → Digest :=
  if converged F (stage3 F) then stage3 F else loop_step F F.tasks.length (stage3 F)

/-- The mapping after step 5. -/
def stage5 (F : Flow) : Nat → Digest :=
  if converged F (stage4 F) then stage4 F else disambiguate F (stage4 F)

/-- Modelled from the spec: `generate_task_ids(flow)` — the final
task → id mapping (§4.4, §6). -/
def generate_task_ids (F : Flow) : Nat → Digest := stage5 F

/-- Modelled from the spec: `generate_task_ids(flow, debug=true)` — the
ordered list of the five per-step mappings (§2 "Debug Trace", §4.4 early
exit: once converged, later entries repeat the converged mapping). -/
def generate_task_ids_debug (F : Flow) : List (Nat → Digest) :=
  [stage1 F, stage2 F, stage3 F, stage4 F, stage5 F]

/-!
## Partition simulation

`uniqueCount` and the control flow of the engine depend only on the
*partition* that a mapping induces on the task list, never on raw digest
values.  The following infrastructure relates the digest-valued engine to a
cheap `Nat`-coloured mirror computing the same partitions, which lets concrete
unique-id counts of step 4's fixed point be evaluated without materialising
the (exponentially growing) free digest terms.
-/

/-- The mappings `f` and `g` induce the same partition (equality kernel) on `ts`. -/
def KerEq (ts : List Nat) (f : Nat → Digest) (g : Nat → Nat) : Prop :=
  ∀ t ∈ ts, ∀ u ∈ ts, (f t = f u ↔ g t = g u)

instance (ts : List Nat) (f : Nat → Digest) (g : Nat → Nat) :
    Decidable (KerEq ts f g) :=
  inferInstanceAs (Decidable (∀ t ∈ ts, ∀ u ∈ ts, (f t = f u ↔ g t = g u)))

theorem eraseP_congr_pred {p q : α → Bool} :
    ∀ {l : List α}, (∀ x ∈ l, p x = q x) → l.eraseP p = l.eraseP q
  | [], _ => rfl
  | a :: l, h => by
    by_cases ha : p a = true
    · rw [List.eraseP_cons_of_pos ha,
        List.eraseP_cons_of_pos (show q a = true by
          rw [← h a (List.mem_cons_self a l)]; exact ha)]
    · rw [List.eraseP_cons_of_neg (by simpa using ha),
        List.eraseP_cons_of_neg (show ¬ q a = true by
          rw [← h a (List.mem_cons_self a l)]; simpa using ha),
        eraseP_congr_pred (fun x hx => h x (List.mem_cons_of_mem a hx))]

theorem lookup_map_self {h : Nat → Nat} :
    ∀ {ts : List Nat}, ∀ t ∈ ts,
      (ts.map (fun u => (u, h u))).lookup t = some (h t)
  | [], t, ht => absurd ht (List.not_mem_nil t)
  | a :: ts, t, ht => by
    by_cases hat : t = a
    · subst hat
      simp [List.lookup]
    · have ht' : t ∈ ts := by
        rcases List.mem_cons.mp ht with h' | h'
        · exact absurd h' hat
        · exact h'
      have hb : (t == a) = false := by simpa using hat
      simp only [List.map_cons, List.lookup, hb]
      exact lookup_map_self t ht' 

/-- Same partitions give the same number of distinct values. -/
theorem kerEq_dedup_length {f : Nat → Digest} {g : Nat → Nat} :
    ∀ {l : List Nat}, (∀ t ∈ l, ∀ u ∈ l, (f t = f u ↔ g t = g u)) →
      ((l.map f).dedup).length = ((l.map g).dedup).length
  | [], _ => rfl
  | a :: l, h => by
    have hmem : f a ∈ l.map f ↔ g a ∈ l.map g := by
      simp only [List.mem_map]
      constructor
      · rintro ⟨u, hu, hfu⟩
        exact ⟨u, hu, (h u (List.mem_cons_of_mem a hu) a (List.mem_cons_self a l)).mp hfu⟩
      · rintro ⟨u, hu, hgu⟩
        exact ⟨u, hu, (h u (List.mem_cons_of_mem a hu) a (List.mem_cons_self a l)).mpr hgu⟩
    have hrest : ∀ t ∈ l, ∀ u ∈ l, (f t = f u ↔ g t = g u) := fun t ht u hu =>
      h t (List.mem_cons_of_mem a ht) u (List.mem_cons_of_mem a hu)
    by_cases hin : f a ∈ l.map f
    · rw [List.map_cons, List.map_cons, List.dedup_cons_of_mem hin,
        List.dedup_cons_of_mem (hmem.mp hin)]
      exact kerEq_dedup_length hrest
    · rw [List.map_cons, List.map_cons, List.dedup_cons_of_not_mem hin,
        List.dedup_cons_of_not_mem (fun hc => hin (hmem.mpr hc))]
      simpa using kerEq_dedup_length hrest

/-- Same partitions transfer multiset equality of mapped sublists. -/
theorem kerEq_perm_map {ts : List Nat} {f : Nat → Digest} {g : Nat → Nat}
    (hker : KerEq ts f g) :
    ∀ (l l' : List Nat), (∀ x ∈ l, x ∈ ts) → (∀ x ∈ l', x ∈ ts) →
      ((l.map f).Perm (l'.map f) ↔ (l.map g).Perm (l'.map g))
  | [], l', _, _ => by
    simp only [List.map_nil]
    constructor
    · intro hp
      have := List.Perm.nil_eq hp
      rw [List.map_eq_nil_iff.mp this.symm]
      simp
    · intro hp
      have := List.Perm.nil_eq hp
      rw [List.map_eq_nil_iff.mp this.symm]
      simp
  | a :: l, l', hl, hl' => by
    simp only [List.map_cons]
    rw [List.cons_perm_iff_perm_erase, List.cons_perm_iff_perm_erase]
    have hmem : f a ∈ l'.map f ↔ g a ∈ l'.map g := by
      simp only [List.mem_map]
      constructor
      · rintro ⟨u, hu, hfu⟩
        exact ⟨u, hu, (hker u (hl' u hu) a (hl a (List.mem_cons_self a l))).mp hfu⟩
      · rintro ⟨u, hu, hgu⟩
        exact ⟨u, hu, (hker u (hl' u hu) a (hl a (List.mem_cons_self a l))).mpr hgu⟩
    constructor
    · rintro ⟨hmf, hpf⟩
      refine ⟨hmem.mp hmf, ?_⟩
      -- rewrite both erases as eraseP over the task list
      have hef : (l'.map f).erase (f a) = (l'.eraseP (fun u => f u == f a)).map f := by
        rw [List.erase_eq_eraseP', List.eraseP_map]
        rfl
      have heg : (l'.map g).erase (g a) = (l'.eraseP (fun u => g u == g a)).map g := by
        rw [List.erase_eq_eraseP', List.eraseP_map]
        rfl
      have hsame : l'.eraseP (fun u => f u == f a) = l'.eraseP (fun u => g u == g a) := by
        apply eraseP_congr_pred
        intro x hx
        by_cases hfx : f x = f a
        · simp [hfx, (hker x (hl' x hx) a (hl a (List.mem_cons_self a l))).mp hfx]
        · have : ¬ g x = g a :=
            fun hc => hfx ((hker x (hl' x hx) a (hl a (List.mem_cons_self a l))).mpr hc)
          simp [hfx, this]
      rw [hef] at hpf
      rw [heg, ← hsame]
      have hsub : ∀ x ∈ l'.eraseP (fun u => f u == f a), x ∈ ts := fun x hx =>
        hl' x ((List.eraseP_sublist l').mem hx)
      exact (kerEq_perm_map hker l (l'.eraseP (fun u => f u == f a))
        (fun x hx => hl x (List.mem_cons_of_mem a hx)) hsub).mp hpf
    · rintro ⟨hmg, hpg⟩
      refine ⟨hmem.mpr hmg, ?_⟩
      have hef : (l'.map f).erase (f a) = (l'.eraseP (fun u => f u == f a)).map f := by
        rw [List.erase_eq_eraseP', List.eraseP_map]
        rfl
      have heg : (l'.map g).erase (g a) = (l'.eraseP (fun u => g u == g a)).map g := by
        rw [List.erase_eq_eraseP', List.eraseP_map]
        rfl
      have hsame : l'.eraseP (fun u => f u == f a) = l'.eraseP (fun u => g u == g a) := by
        apply eraseP_congr_pred
        intro x hx
        by_cases hfx : f x = f a
        · simp [hfx, (hker x (hl' x hx) a (hl a (List.mem_cons_self a l))).mp hfx]
        · have : ¬ g x = g a :=
            fun hc => hfx ((hker x (hl' x hx) a (hl a (List.mem_cons_self a l))).mpr hc)
          simp [hfx, this]
      rw [heg] at hpg
      rw [hef, hsame]
      have hsub : ∀ x ∈ l'.eraseP (fun u => g u == g a), x ∈ ts := fun x hx =>
        hl' x ((List.eraseP_sublist l').mem hx)
      exact (kerEq_perm_map hker l (l'.eraseP (fun u => g u == g a))
        (fun x hx => hl x (List.mem_cons_of_mem a hx)) hsub).mpr hpg


/-- Signature of a task in one cheap refinement round: its colour together
with the sorted colours of its direct neighbours. -/
def round_sig (F : Flow) (g : Nat → Nat) (t : Nat) : Nat × List Nat :=
  (g t, sortNat ((F.nbrs t).map g))

/-- Cheap mirror of `round_step`: recolour every task by the position of its
signature in the list of all signatures. -/
def round_color (F : Flow) (g : Nat → Nat) : List (Nat × Nat) :=
  F.tasks.map (fun t => (t, idxOf (round_sig F g t) (F.tasks.map (round_sig F g))))

/-- Read a colour off an association list. -/
def colorOf (cl : List (Nat × Nat)) (t : Nat) : Nat := (cl.lookup t).getD 0

/-- Unique-colour count of a colour table. -/
def ccount (F : Flow) (cl : List (Nat × Nat)) : Nat :=
  ((F.tasks.map (colorOf cl)).dedup).length

/-- Cheap mirror of `loop_step` on colour tables. -/
def loop_color (F : Flow) : Nat → List (Nat × Nat) → List (Nat × Nat)
  | 0, cl => cl
  | fuel + 1, cl =>
    if ccount F cl = F.tasks.length then cl
    else
      if ccount F (round_color F (colorOf cl)) = ccount F cl then
        round_color F (colorOf cl)
      else loop_color F fuel (round_color F (colorOf cl))

/-- One synchronous diffusion round preserves the partition correspondence. -/
theorem round_kerEq (F : Flow) {f : Nat → Digest} {g : Nat → Nat}
    (hker : KerEq F.tasks f g)
    (hnb : ∀ t ∈ F.tasks, ∀ u ∈ F.nbrs t, u ∈ F.tasks) :
    KerEq F.tasks (round_step F f) (colorOf (round_color F g)) := by
  intro t ht u hu
  have h1 : round_step F f t = round_step F f u ↔
      (f t = f u ∧ sortD ((F.nbrs t).map f) = sortD ((F.nbrs u).map f)) := by
    constructor
    · intro h
      simp only [round_step] at h
      have hl := digest_inj h
      simp only [List.cons_append, List.nil_append, List.cons.injEq] at hl
      exact ⟨hl.1, hl.2.2⟩
    · rintro ⟨ha, hb⟩
      simp only [round_step, ha, hb]
  have h2 : colorOf (round_color F g) t = colorOf (round_color F g) u ↔
      round_sig F g t = round_sig F g u := by
    simp only [colorOf, round_color]
    rw [lookup_map_self t ht, lookup_map_self u hu]
    simp only [Option.getD_some]
    exact idxOf_inj (List.mem_map_of_mem (round_sig F g) ht)
      (List.mem_map_of_mem (round_sig F g) hu)
  rw [h1, h2]
  simp only [round_sig, Prod.mk.injEq]
  constructor
  · rintro ⟨ha, hb⟩
    refine ⟨(hker t ht u hu).mp ha, ?_⟩
    rw [sortNat_eq_iff_perm]
    exact (kerEq_perm_map hker (F.nbrs t) (F.nbrs u) (hnb t ht) (hnb u hu)).mp
      (sortD_eq_iff_perm.mp hb)
  · rintro ⟨ha, hb⟩
    refine ⟨(hker t ht u hu).mpr ha, ?_⟩
    rw [sortD_eq_iff_perm]
    exact (kerEq_perm_map hker (F.nbrs t) (F.nbrs u) (hnb t ht) (hnb u hu)).mpr
      (sortNat_eq_iff_perm.mp hb)

/-- Step 4's fixed point preserves the partition correspondence: the digest
loop and the colour loop make identical control decisions and stay related. -/
theorem loop_kerEq (F : Flow)
    (hnb : ∀ t ∈ F.tasks, ∀ u ∈ F.nbrs t, u ∈ F.tasks) :
    ∀ (fuel : Nat) (f : Nat → Digest) (cl : List (Nat × Nat)),
      KerEq F.tasks f (colorOf cl) →
      KerEq F.tasks (loop_step F fuel f) (colorOf (loop_color F fuel cl))
  | 0, f, cl, hker => hker
  | fuel + 1, f, cl, hker => by
    have hcount : uniqueCount F f = ccount F cl := kerEq_dedup_length hker
    by_cases hconv : converged F f
    · rw [loop_step, loop_color, if_pos hconv,
        if_pos (show ccount F cl = F.tasks.length by rw [← hcount]; exact hconv)]
      exact hker
    · have hker' : KerEq F.tasks (round_step F f) (colorOf (round_color F (colorOf cl))) :=
        round_kerEq F hker hnb
      have hcount' : uniqueCount F (round_step F f)
          = ccount F (round_color F (colorOf cl)) := kerEq_dedup_length hker'
      rw [loop_step, loop_color, if_neg hconv,
        if_neg (show ¬ ccount F cl = F.tasks.length by rw [← hcount]; exact hconv)]
      by_cases hstop : uniqueCount F (round_step F f) = uniqueCount F f
      · rw [if_pos hstop,
          if_pos (show ccount F (round_color F (colorOf cl)) = ccount F cl by
            rw [← hcount', ← hcount]; exact hstop)]
        exact hker'
      · rw [if_neg hstop,
          if_neg (show ¬ ccount F (round_color F (colorOf cl)) = ccount F cl by
            rw [← hcount', ← hcount]; exact hstop)]
        exact loop_kerEq F hnb fuel (round_step F f) (round_color F (colorOf cl)) hker'

/-- Unique-id count of step 4's output, computed in the cheap colour world. -/
theorem loop_count (F : Flow)
    (hnb : ∀ t ∈ F.tasks, ∀ u ∈ F.nbrs t, u ∈ F.tasks)
    (fuel : Nat) (f : Nat → Digest) (cl : List (Nat × Nat))
    (hker : KerEq F.tasks f (colorOf cl)) :
    uniqueCount F (loop_step F fuel f) = ccount F (loop_color F fuel cl) :=
  kerEq_dedup_length (loop_kerEq F hnb fuel f cl hker)

/-!
## The pathological flow (claim C7)

Five identical ten-task chains `a0..a9`, …, `e0..e9` (tasks `0..49`, row by
row) with the extra cross edges `a3→b4`, `b3→c4`, `c3→d4`, `d3→e4`; all fifty
tasks carry the same self-fingerprint. -/

def pathoFlow : Flow :=
  { project := "", name := "", version := "", tasks := List.range 50,
    edges :=
      [(0, 1), (1, 2), (2, 3), (3, 4), (4, 5), (5, 6), (6, 7), (7, 8), (8, 9),
       (10, 11), (11, 12), (12, 13), (13, 14), (14, 15), (15, 16), (16, 17),
       (17, 18), (18, 19),
       (20, 21), (21, 22), (22, 23), (23, 24), (24, 25), (25, 26), (26, 27),
       (27, 28), (28, 29),
       (30, 31), (31, 32), (32, 33), (33, 34), (34, 35), (35, 36), (36, 37),
       (37, 38), (38, 39),
       (40, 41), (41, 42), (42, 43), (43, 44), (44, 45), (45, 46), (46, 47),
       (47, 48), (48, 49),
       (3, 14), (13, 24), (23, 34), (33, 44)],
    fp := fun _ => "" }

/-- A colour table matching the partition of `pathoFlow` after step 3
(checked below by `decide`). -/
def pathoC3 : List (Nat × Nat) :=
  List.zip (List.range 50)
    [0, 1, 2, 3, 4, 5, 6, 7, 8, 9,
     10, 11, 12, 13, 14, 15, 16, 17, 18, 19,
     10, 11, 12, 13, 14, 15, 16, 17, 18, 19,
     10, 11, 12, 13, 14, 15, 16, 17, 18, 19,
     20, 21, 22, 23, 14, 15, 16, 17, 18, 19]

set_option maxRecDepth 4000000 in
theorem patho_count1 : uniqueCount pathoFlow (stage1 pathoFlow) = 1 := by decide

set_option maxRecDepth 4000000 in
set_option maxHeartbeats 2000000 in
theorem patho_count2 : uniqueCount pathoFlow (stage2 pathoFlow) = 16 := by decide

set_option maxRecDepth 4000000 in
set_option maxHeartbeats 4000000 in
theorem patho_count3 : uniqueCount pathoFlow (stage3 pathoFlow) = 24 := by decide

set_option maxRecDepth 4000000 in
set_option maxHeartbeats 8000000 in
theorem patho_kerEq : KerEq pathoFlow.tasks (stage3 pathoFlow) (colorOf pathoC3) := by
  decide

set_option maxRecDepth 4000000 in
theorem patho_nbrs_closed :
    ∀ t ∈ pathoFlow.tasks, ∀ u ∈ pathoFlow.nbrs t, u ∈ pathoFlow.tasks := by decide

set_option maxRecDepth 4000000 in
set_option maxHeartbeats 2000000 in
theorem patho_count4 : uniqueCount pathoFlow (stage4 pathoFlow) = 50 := by
  have hnc3 : ¬ converged pathoFlow (stage3 pathoFlow) := by
    intro hc
    have : (24 : Nat) = 50 := by
      have hlen : pathoFlow.tasks.length = 50 := by decide
      rw [← patho_count3, hc, hlen]
    exact absurd this (by decide)
  have h4eq : stage4 pathoFlow
      = loop_step pathoFlow pathoFlow.tasks.length (stage3 pathoFlow) := by
    rw [stage4, if_neg hnc3]
  rw [h4eq,
    loop_count pathoFlow patho_nbrs_closed pathoFlow.tasks.length
      (stage3 pathoFlow) pathoC3 patho_kerEq]
  decide

theorem patho_converged4 : converged pathoFlow (stage4 pathoFlow) := by
  show uniqueCount pathoFlow (stage4 pathoFlow) = pathoFlow.tasks.length
  rw [patho_count4]
  decide

theorem patho_count5 : uniqueCount pathoFlow (stage5 pathoFlow) = 50 := by
  rw [stage5, if_pos patho_converged4]
  exact patho_count4

/-- Claim C7: for the pathological flow of five identical 10-task chains with
cross edges `a3→b4`, `b3→c4`, `c3→d4`, `d3→e4` (all 50 tasks with equal
self-fingerprints), the debug trace's unique-id counts after steps 1–5 are
exactly 1, 16, 24, 50, 50. -/
theorem claim_C7 :
    (generate_task_ids_debug pathoFlow).map (uniqueCount pathoFlow)
      = [1, 16, 24, 50, 50] := by
  simp only [generate_task_ids_debug, List.map_cons, List.map_nil,
    patho_count1, patho_count2, patho_count3, patho_count4, patho_count5]

/-!
## Stage laws: early exit and the debug trace (claim C6)
-/

theorem stage2_of_converged {F : Flow} (h : converged F (stage1 F)) :
    stage2 F = stage1 F := by
  rw [stage2, if_pos h]

theorem stage3_of_converged {F : Flow} (h : converged F (stage2 F)) :
    stage3 F = stage2 F := by
  rw [stage3, if_pos h]

theorem stage4_of_converged {F : Flow} (h : converged F (stage3 F)) :
    stage4 F = stage3 F := by
  rw [stage4, if_pos h]

theorem stage5_of_converged {F : Flow} (h : converged F (stage4 F)) :
    stage5 F = stage4 F := by
  rw [stage5, if_pos h]

theorem stages_chain1 {F : Flow} (h : converged F (stage1 F)) :
    stage2 F = stage1 F ∧ stage3 F = stage1 F ∧ stage4 F = stage1 F
      ∧ stage5 F = stage1 F := by
  have h2 : stage2 F = stage1 F := stage2_of_converged h
  have hc2 : converged F (stage2 F) := by rw [h2]; exact h
  have h3 : stage3 F = stage1 F := by rw [stage3_of_converged hc2]; exact h2
  have hc3 : converged F (stage3 F) := by rw [h3]; exact h
  have h4 : stage4 F = stage1 F := by rw [stage4_of_converged hc3]; exact h3
  have hc4 : converged F (stage4 F) := by rw [h4]; exact h
  have h5 : stage5 F = stage1 F := by rw [stage5_of_converged hc4]; exact h4
  exact ⟨h2, h3, h4, h5⟩

theorem stages_chain2 {F : Flow} (h : converged F (stage2 F)) :
    stage3 F = stage2 F ∧ stage4 F = stage2 F ∧ stage5 F = stage2 F := by
  have h3 : stage3 F = stage2 F := stage3_of_converged h
  have hc3 : converged F (stage3 F) := by rw [h3]; exact h
  have h4 : stage4 F = stage2 F := by rw [stage4_of_converged hc3]; exact h3
  have hc4 : converged F (stage4 F) := by rw [h4]; exact h
  have h5 : stage5 F = stage2 F := by rw [stage5_of_converged hc4]; exact h4
  exact ⟨h3, h4, h5⟩

theorem stages_chain3 {F : Flow} (h : converged F (stage3 F)) :
    stage4 F = stage3 F ∧ stage5 F = stage3 F := by
  have h4 : stage4 F = stage3 F := stage4_of_converged h
  have hc4 : converged F (stage4 F) := by rw [h4]; exact h
  have h5 : stage5 F = stage3 F := by rw [stage5_of_converged hc4]; exact h4
  exact ⟨h4, h5⟩

/-- Claim C6: the debug trace is an ordered sequence of exactly five mappings,
and once the unique-id count of a traced step equals the number of tasks,
every later traced step is identical to that step's mapping. -/
theorem claim_C6 (F : Flow) :
    (generate_task_ids_debug F).length = 5 ∧
    ∀ k j : Nat, k ≤ j → j < 5 →
      converged F ((generate_task_ids_debug F).getD k (stage1 F)) →
      (generate_task_ids_debug F).getD j (stage1 F)
        = (generate_task_ids_debug F).getD k (stage1 F) := by
  refine ⟨rfl, ?_⟩
  intro k j hkj hj hconv
  interval_cases j <;> interval_cases k <;>
    simp only [generate_task_ids_debug, List.getD_cons_zero, List.getD_cons_succ] at hconv ⊢
  · exact (stages_chain1 hconv).1
  · exact (stages_chain1 hconv).2.1
  · exact (stages_chain2 hconv).1
  · exact (stages_chain1 hconv).2.2.1
  · exact (stages_chain2 hconv).2.1
  · exact (stages_chain3 hconv).1
  · exact (stages_chain1 hconv).2.2.2
  · exact (stages_chain2 hconv).2.2
  · exact (stages_chain3 hconv).2
  · exact stage5_of_converged hconv

/-- A single-task flow, converged after step 1. -/
def singleFlow : Flow :=
  { project := "", name := "", version := "", tasks := [0], edges := [],
    fp := fun _ => "" }

theorem claim_C6_witness :
    (0 : Nat) ≤ 4 ∧ (4 : Nat) < 5 ∧
    converged singleFlow ((generate_task_ids_debug singleFlow).getD 0 (stage1 singleFlow)) ∧
    (generate_task_ids_debug singleFlow).getD 4 (stage1 singleFlow)
      = (generate_task_ids_debug singleFlow).getD 0 (stage1 singleFlow) :=
  ⟨by decide, by decide, by decide,
    (claim_C6 singleFlow).2 0 4 (by decide) (by decide) (by decide)⟩

/-!
## Congruence: the engine is a pure function of
`(project, name, fingerprints, tasks-as-set, edges-as-set)` (claims C2, C3)
-/

theorem flow_fp_congr {F G : Flow} (hproj : F.project = G.project)
    (hname : F.name = G.name) : flow_fp F = flow_fp G := by
  simp [flow_fp, hproj, hname]

theorem upstream_perm {F G : Flow} (hedges : F.edges.Perm G.edges) (t : Nat) :
    (F.upstream t).Perm (G.upstream t) :=
  (hedges.filter _).map _

theorem downstream_perm {F G : Flow} (hedges : F.edges.Perm G.edges) (t : Nat) :
    (F.downstream t).Perm (G.downstream t) :=
  (hedges.filter _).map _

theorem nbrs_perm {F G : Flow} (hedges : F.edges.Perm G.edges) (t : Nat) :
    (F.nbrs t).Perm (G.nbrs t) :=
  (upstream_perm hedges t).append (downstream_perm hedges t)

theorem id_one_congr {F G : Flow} (hproj : F.project = G.project)
    (hname : F.name = G.name) (hfp : ∀ t, F.fp t = G.fp t) (t : Nat) :
    id_one F t = id_one G t := by
  simp [id_one, flow_fp_congr hproj hname, hfp t]

theorem id_two_congr {F G : Flow} (hproj : F.project = G.project)
    (hname : F.name = G.name) (hfp : ∀ t, F.fp t = G.fp t)
    (hedges : F.edges.Perm G.edges) :
    ∀ (fuel t : Nat), id_two F fuel t = id_two G fuel t
  | 0, t => by simp [id_two, flow_fp_congr hproj hname, hfp t]
  | fuel + 1, t => by
    have h1 : (F.upstream t).map (id_two F fuel) = (F.upstream t).map (id_two G fuel) :=
      List.map_congr_left (fun u _ => id_two_congr hproj hname hfp hedges fuel u)
    have h2 : ((F.upstream t).map (id_two F fuel)).Perm
        ((G.upstream t).map (id_two G fuel)) := by
      rw [h1]
      exact (upstream_perm hedges t).map _
    simp [id_two, flow_fp_congr hproj hname, hfp t, sortD_congr h2]

theorem id_three_congr {F G : Flow} {f g : Nat → Digest}
    (hfg : ∀ t, f t = g t) (hedges : F.edges.Perm G.edges) :
    ∀ (fuel t : Nat), id_three F f fuel t = id_three G g fuel t
  | 0, t => by simp [id_three, hfg t]
  | fuel + 1, t => by
    have h1 : (F.downstream t).map (id_three F f fuel)
        = (F.downstream t).map (id_three G g fuel) :=
      List.map_congr_left (fun u _ => id_three_congr hfg hedges fuel u)
    have h2 : ((F.downstream t).map (id_three F f fuel)).Perm
        ((G.downstream t).map (id_three G g fuel)) := by
      rw [h1]
      exact (downstream_perm hedges t).map _
    simp [id_three, hfg t, sortD_congr h2]

theorem uniqueCount_congr {F G : Flow} {f g : Nat → Digest}
    (hfg : ∀ t, f t = g t) (htasks : F.tasks.Perm G.tasks) :
    uniqueCount F f = uniqueCount G g := by
  have h1 : F.tasks.map f = F.tasks.map g := List.map_congr_left (fun t _ => hfg t)
  have h2 : (F.tasks.map g).Perm (G.tasks.map g) := htasks.map g
  simp [uniqueCount, h1, (h2.dedup).length_eq]

theorem converged_congr {F G : Flow} {f g : Nat → Digest}
    (hfg : ∀ t, f t = g t) (htasks : F.tasks.Perm G.tasks) :
    converged F f ↔ converged G g := by
  unfold converged
  rw [uniqueCount_congr hfg htasks, htasks.length_eq]

theorem round_step_congr {F G : Flow} {f g : Nat → Digest}
    (hfg : ∀ t, f t = g t) (hedges : F.edges.Perm G.edges) (t : Nat) :
    round_step F f t = round_step G g t := by
  have h1 : (F.nbrs t).map f = (F.nbrs t).map g :=
    List.map_congr_left (fun u _ => hfg u)
  have h2 : ((F.nbrs t).map f).Perm ((G.nbrs t).map g) := by
    rw [h1]
    exact (nbrs_perm hedges t).map g
  simp [round_step, hfg t, sortD_congr h2]

theorem loop_step_congr {F G : Flow}
    (htasks : F.tasks.Perm G.tasks) (hedges : F.edges.Perm G.edges) :
    ∀ (fuel : Nat) {f g : Nat → Digest}, (∀ t, f t = g t) →
      ∀ t, loop_step F fuel f t = loop_step G fuel g t
  | 0, f, g, hfg, t => hfg t
  | fuel + 1, f, g, hfg, t => by
    by_cases hconv : converged F f
    · rw [loop_step, loop_step, if_pos hconv,
        if_pos ((converged_congr hfg htasks).mp hconv)]
      exact hfg t
    · have hrs : ∀ u, round_step F f u = round_step G g u :=
        fun u => round_step_congr hfg hedges u
      have hcnt : uniqueCount F (round_step F f) = uniqueCount G (round_step G g) :=
        uniqueCount_congr hrs htasks
      have hcnt0 : uniqueCount F f = uniqueCount G g := uniqueCount_congr hfg htasks
      rw [loop_step, loop_step, if_neg hconv,
        if_neg (fun hc => hconv ((converged_congr hfg htasks).mpr hc))]
      by_cases hstop : uniqueCount F (round_step F f) = uniqueCount F f
      · rw [if_pos hstop,
          if_pos (show uniqueCount G (round_step G g) = uniqueCount G g by
            rw [← hcnt, ← hcnt0]; exact hstop)]
        exact hrs t
      · rw [if_neg hstop,
          if_neg (show ¬ uniqueCount G (round_step G g) = uniqueCount G g by
            rw [← hcnt, ← hcnt0]; exact hstop)]
        exact loop_step_congr htasks hedges fuel hrs t

theorem disambiguate_congr {F G : Flow} {f g : Nat → Digest}
    (hfg : ∀ t, f t = g t) (htasks : F.tasks.Perm G.tasks) (t : Nat) :
    disambiguate F f t = disambiguate G g t := by
  have h1 : F.tasks.filter (fun u => decide (f u = f t))
      = F.tasks.filter (fun u => decide (g u = g t)) :=
    List.filter_congr (fun u _ => by rw [hfg u, hfg t])
  have hfilt : (F.tasks.filter (fun u => decide (f u = f t))).Perm
      (G.tasks.filter (fun u => decide (g u = g t))) := by
    rw [h1]
    exact htasks.filter _
  have hlen := hfilt.length_eq
  have hsort := sortNat_congr hfilt
  unfold disambiguate
  by_cases hle : (F.tasks.filter (fun u => decide (f u = f t))).length ≤ 1
  · rw [if_pos hle, if_pos (hlen ▸ hle), hfg t]
  · rw [if_neg hle, if_neg (hlen ▸ hle), hsort, hfg t]

theorem stage1_congr {F G : Flow} (hproj : F.project = G.project)
    (hname : F.name = G.name) (hfp : ∀ t, F.fp t = G.fp t) (t : Nat) :
    stage1 F t = stage1 G t :=
  id_one_congr hproj hname hfp t

theorem stage2_congr {F G : Flow} (hproj : F.project = G.project)
    (hname : F.name = G.name) (hfp : ∀ t, F.fp t = G.fp t)
    (htasks : F.tasks.Perm G.tasks) (hedges : F.edges.Perm G.edges) (t : Nat) :
    stage2 F t = stage2 G t := by
  by_cases h : converged F (stage1 F)
  · rw [stage2, stage2, if_pos h,
      if_pos ((converged_congr (stage1_congr hproj hname hfp) htasks).mp h)]
    exact stage1_congr hproj hname hfp t
  · rw [stage2, stage2, if_neg h,
      if_neg (fun hc => h ((converged_congr (stage1_congr hproj hname hfp) htasks).mpr hc)),
      ← htasks.length_eq]
    exact id_two_congr hproj hname hfp hedges F.tasks.length t

theorem stage3_congr {F G : Flow} (hproj : F.project = G.project)
    (hname : F.name = G.name) (hfp : ∀ t, F.fp t = G.fp t)
    (htasks : F.tasks.Perm G.tasks) (hedges : F.edges.Perm G.edges) (t : Nat) :
    stage3 F t = stage3 G t := by
  have h2 := stage2_congr hproj hname hfp htasks hedges
  by_cases h : converged F (stage2 F)
  · rw [stage3, stage3, if_pos h, if_pos ((converged_congr h2 htasks).mp h)]
    exact h2 t
  · rw [stage3, stage3, if_neg h,
      if_neg (fun hc => h ((converged_congr h2 htasks).mpr hc)), ← htasks.length_eq]
    exact id_three_congr h2 hedges F.tasks.length t

theorem stage4_congr {F G : Flow} (hproj : F.project = G.project)
    (hname : F.name = G.name) (hfp : ∀ t, F.fp t = G.fp t)
    (htasks : F.tasks.Perm G.tasks) (hedges : F.edges.Perm G.edges) (t : Nat) :
    stage4 F t = stage4 G t := by
  have h3 := stage3_congr hproj hname hfp htasks hedges
  by_cases h : converged F (stage3 F)
  · rw [stage4, stage4, if_pos h, if_pos ((converged_congr h3 htasks).mp h)]
    exact h3 t
  · rw [stage4, stage4, if_neg h,
      if_neg (fun hc => h ((converged_congr h3 htasks).mpr hc)), ← htasks.length_eq]
    exact loop_step_congr htasks hedges F.tasks.length h3 t

theorem stage5_congr {F G : Flow} (hproj : F.project = G.project)
    (hname : F.name = G.name) (hfp : ∀ t, F.fp t = G.fp t)
    (htasks : F.tasks.Perm G.tasks) (hedges : F.edges.Perm G.edges) (t : Nat) :
    stage5 F t = stage5 G t := by
  have h4 := stage4_congr hproj hname hfp htasks hedges
  by_cases h : converged F (stage4 F)
  · rw [stage5, stage5, if_pos h, if_pos ((converged_congr h4 htasks).mp h)]
    exact h4 t
  · rw [stage5, stage5, if_neg h,
      if_neg (fun hc => h ((converged_congr h4 htasks).mpr hc))]
    exact disambiguate_congr h4 htasks t

/-- Claim C2: `generate_task_ids` is deterministic and order-independent —
for a flow and any deep copy / re-construction of it with tasks and edges
inserted in a different order (same project, name and fingerprints), the full
task → id mapping is unchanged, including for flows with structurally
indistinguishable duplicate subgraphs. -/
theorem claim_C2 (F G : Flow) (hproj : F.project = G.project)
    (hname : F.name = G.name) (hfp : ∀ t, F.fp t = G.fp t)
    (htasks : F.tasks.Perm G.tasks) (hedges : F.edges.Perm G.edges) :
    ∀ t, generate_task_ids F t = generate_task_ids G t :=
  fun t => stage5_congr hproj hname hfp htasks hedges t

/-- Two identical two-task chains (`x1→x2`, `y1→y2`): a flow with duplicate
subgraphs, and a re-construction of it with tasks and edges inserted in a
different order. -/
def dupFlowA : Flow :=
  { project := "p", name := "n", version := "1", tasks := [0, 1, 2, 3],
    edges := [(0, 1), (2, 3)], fp := fun _ => "" }

def dupFlowB : Flow :=
  { project := "p", name := "n", version := "1", tasks := [3, 1, 2, 0],
    edges := [(2, 3), (0, 1)], fp := fun _ => "" }

theorem claim_C2_witness :
    dupFlowA.project = dupFlowB.project ∧ dupFlowA.name = dupFlowB.name ∧
    (∀ t, dupFlowA.fp t = dupFlowB.fp t) ∧ dupFlowA.tasks.Perm dupFlowB.tasks ∧
    dupFlowA.edges.Perm dupFlowB.edges ∧
    ∀ t, generate_task_ids dupFlowA t = generate_task_ids dupFlowB t :=
  ⟨rfl, rfl, fun _ => rfl, by decide, by decide,
    claim_C2 dupFlowA dupFlowB rfl rfl (fun _ => rfl) (by decide) (by decide)⟩

/-- Claim C3: changing only a flow's version leaves every task id unchanged
(version is deliberately excluded from the flow fingerprint). -/
theorem claim_C3 (F G : Flow) (hproj : F.project = G.project)
    (hname : F.name = G.name) (htasks : F.tasks = G.tasks)
    (hedges : F.edges = G.edges) (hfp : ∀ t, F.fp t = G.fp t) :
    ∀ t, generate_task_ids F t = generate_task_ids G t :=
  fun t => stage5_congr hproj hname hfp
    (by rw [htasks]) (by rw [hedges]) t

def verFlowA : Flow :=
  { project := "p", name := "n", version := "1", tasks := [0, 1, 2],
    edges := [(0, 1), (1, 2)], fp := fun _ => "" }

def verFlowB : Flow :=
  { project := "p", name := "n", version := "another flow version",
    tasks := [0, 1, 2], edges := [(0, 1), (1, 2)], fp := fun _ => "" }

theorem claim_C3_witness :
    verFlowA.version ≠ verFlowB.version ∧
    verFlowA.project = verFlowB.project ∧ verFlowA.name = verFlowB.name ∧
    verFlowA.tasks = verFlowB.tasks ∧ verFlowA.edges = verFlowB.edges ∧
    (∀ t, verFlowA.fp t = verFlowB.fp t) ∧
    ∀ t, generate_task_ids verFlowA t = generate_task_ids verFlowB t :=
  ⟨by decide, rfl, rfl, rfl, rfl, fun _ => rfl,
    claim_C3 verFlowA verFlowB rfl rfl rfl rfl (fun _ => rfl)⟩

/-!
## Claim C1: step 5 always reaches full discrimination
-/

theorem natD_inj : ∀ {m n : Nat}, natD m = natD n → m = n
  | 0, 0, _ => rfl
  | 0, _ + 1, h => by simp [natD] at h
  | _ + 1, 0, h => by simp [natD] at h
  | m + 1, n + 1, h => by
    simp only [natD, Digest.cons.injEq] at h
    rw [natD_inj h.2]

theorem mem_of_length_le_one {l : List α} (hlen : l.length ≤ 1)
    {a b : α} (ha : a ∈ l) (hb : b ∈ l) : a = b := by
  cases l with
  | nil => exact absurd ha (List.not_mem_nil a)
  | cons x l' =>
    cases l' with
    | nil =>
      rw [List.mem_singleton.mp ha, List.mem_singleton.mp hb]
    | cons y l'' => simp at hlen

/-- When step 4 exits without convergence, its output is a round-step image:
every id carries the `"∘"` separator in second position. -/
theorem loop_step_shape (F : Flow) :
    ∀ (fuel : Nat) (f : Nat → Digest), ¬ converged F f → 1 ≤ fuel →
      ∃ g, loop_step F fuel f = round_step F g
  | 0, _, _, h1 => absurd h1 (by decide)
  | fuel + 1, f, hconv, _ => by
    rw [loop_step, if_neg hconv]
    by_cases hstop : uniqueCount F (round_step F f) = uniqueCount F f
    · rw [if_pos hstop]
      exact ⟨f, rfl⟩
    · rw [if_neg hstop]
      by_cases hconv' : converged F (round_step F f)
      · cases fuel with
        | zero => exact ⟨f, rfl⟩
        | succ fuel' =>
          rw [loop_step, if_pos hconv']
          exact ⟨f, rfl⟩
      · cases fuel with
        | zero => exact ⟨f, rfl⟩
        | succ fuel' =>
          exact loop_step_shape F (fuel' + 1) (round_step F f) hconv'
            (Nat.succ_le_succ (Nat.zero_le fuel'))

theorem round_step_shape (F : Flow) (g : Nat → Digest) (t : Nat) :
    round_step F g t
      = Digest.cons (g t) (Digest.cons tagRound (digest (sortD ((F.nbrs t).map g)))) :=
  rfl

theorem disambiguate_injOn (F : Flow) {f : Nat → Digest}
    (hshape : ∀ t, ∃ a rest, f t = Digest.cons a (Digest.cons tagRound rest)) :
    ∀ t ∈ F.tasks, ∀ u ∈ F.tasks,
      disambiguate F f t = disambiguate F f u → t = u := by
  intro t ht u hu heq
  by_cases hlt : (F.tasks.filter (fun w => decide (f w = f t))).length ≤ 1 <;>
    by_cases hlu : (F.tasks.filter (fun w => decide (f w = f u))).length ≤ 1
  · -- both singleton partitions: the ids are the step-4 ids
    rw [disambiguate, if_pos hlt, disambiguate, if_pos hlu] at heq
    have hmt : t ∈ F.tasks.filter (fun w => decide (f w = f t)) :=
      List.mem_filter.mpr ⟨ht, by simp⟩
    have hmu : u ∈ F.tasks.filter (fun w => decide (f w = f t)) :=
      List.mem_filter.mpr ⟨hu, by simp [heq]⟩
    exact (mem_of_length_le_one hlt hmu hmt).symm
  · -- singleton vs disambiguated: separators "∘" and "#" clash
    rw [disambiguate, if_pos hlt, disambiguate, if_neg hlu] at heq
    obtain ⟨a, rest, hsh⟩ := hshape t
    rw [hsh] at heq
    simp only [digest, List.foldr, Digest.cons.injEq] at heq
    exact absurd heq.2.1 (by decide)
  · rw [disambiguate, if_neg hlt, disambiguate, if_pos hlu] at heq
    obtain ⟨a, rest, hsh⟩ := hshape u
    rw [hsh] at heq
    simp only [digest, List.foldr, Digest.cons.injEq] at heq
    exact absurd heq.2.1 (by decide)
  · -- both disambiguated: equal step-4 ids, hence equal partitions and ranks
    rw [disambiguate, if_neg hlt, disambiguate, if_neg hlu] at heq
    simp only [digest, List.foldr, Digest.cons.injEq, and_true] at heq
    have hft := heq.1
    have hrank := natD_inj heq.2.2
    have hcls : F.tasks.filter (fun w => decide (f w = f t))
        = F.tasks.filter (fun w => decide (f w = f u)) :=
      List.filter_congr (fun w _ => by rw [hft])
    rw [hcls] at hrank
    have hmt : t ∈ sortNat (F.tasks.filter (fun w => decide (f w = f u))) := by
      rw [sortNat, List.mem_insertionSort]
      exact List.mem_filter.mpr ⟨ht, by simp [hft]⟩
    have hmu : u ∈ sortNat (F.tasks.filter (fun w => decide (f w = f u))) := by
      rw [sortNat, List.mem_insertionSort]
      exact List.mem_filter.mpr ⟨hu, by simp⟩
    exact (idxOf_inj hmt hmu).mp hrank

/-- Claim C1: for every flow (with a duplicate-free task collection), the
final mapping assigns distinct ids to distinct tasks — the number of unique
id values equals the number of tasks. -/
theorem claim_C1 (F : Flow) (hnd : F.tasks.Nodup) :
    (∀ t ∈ F.tasks, ∀ u ∈ F.tasks,
        generate_task_ids F t = generate_task_ids F u → t = u) ∧
    uniqueCount F (generate_task_ids F) = F.tasks.length := by
  have hinj : ∀ t ∈ F.tasks, ∀ u ∈ F.tasks,
      generate_task_ids F t = generate_task_ids F u → t = u := by
    by_cases hconv : converged F (stage4 F)
    · -- converged: the count is already full, so equal ids force equal tasks
      intro t ht u hu heq
      rw [generate_task_ids, stage5_of_converged hconv] at heq
      -- a converged mapping is injective on a nodup task list
      have hcnt : ((F.tasks.map (stage4 F)).dedup).length = F.tasks.length := hconv
      have hnd4 : (F.tasks.map (stage4 F)).Nodup := by
        have hsub : (F.tasks.map (stage4 F)).dedup.Sublist (F.tasks.map (stage4 F)) :=
          List.dedup_sublist _
        have hlen : (F.tasks.map (stage4 F)).length = F.tasks.length :=
          List.length_map _ _
        have : (F.tasks.map (stage4 F)).dedup = F.tasks.map (stage4 F) :=
          List.Sublist.eq_of_length hsub (by rw [hcnt, hlen])
        rw [← this]
        exact List.nodup_dedup _
      have := List.inj_on_of_nodup_map hnd4
      exact this ht hu heq
    · -- not converged: step 5 disambiguation is injective
      have hnc3 : ¬ converged F (stage3 F) := by
        intro hc3
        exact hconv (by rw [stage4_of_converged hc3]; exact hc3)
      have hne : F.tasks ≠ [] := by
        intro hnil
        apply hnc3
        show uniqueCount F (stage3 F) = F.tasks.length
        rw [uniqueCount, hnil]
        rfl
      have hfuel : 1 ≤ F.tasks.length :=
        Nat.succ_le_of_lt (List.length_pos.mpr hne)
      have h4eq : stage4 F = loop_step F F.tasks.length (stage3 F) := by
        rw [stage4, if_neg hnc3]
      obtain ⟨g, hg⟩ := loop_step_shape F F.tasks.length (stage3 F) hnc3 hfuel
      have hshape : ∀ t, ∃ a rest,
          stage4 F t = Digest.cons a (Digest.cons tagRound rest) := by
        intro t
        rw [h4eq, hg]
        exact ⟨g t, digest (sortD ((F.nbrs t).map g)), rfl⟩
      intro t ht u hu heq
      rw [generate_task_ids, stage5, if_neg hconv] at heq
      exact disambiguate_injOn F hshape t ht u hu heq
  refine ⟨hinj, ?_⟩
  have hnd5 : (F.tasks.map (generate_task_ids F)).Nodup :=
    List.Nodup.map_on (fun x hx y hy hxy => hinj x hx y hy hxy) hnd
  rw [uniqueCount, hnd5.dedup, List.length_map]

theorem claim_C1_witness :
    dupFlowA.tasks.Nodup ∧
    ((∀ t ∈ dupFlowA.tasks, ∀ u ∈ dupFlowA.tasks,
        generate_task_ids dupFlowA t = generate_task_ids dupFlowA u → t = u) ∧
      uniqueCount dupFlowA (generate_task_ids dupFlowA) = dupFlowA.tasks.length) :=
  ⟨by decide, claim_C1 dupFlowA (by decide)⟩

/-!
## Claim C4: every id embeds the flow fingerprint, so renaming the flow (or
moving it to another project) changes every id
-/

/-- Extract the flow fingerprint seeded at the head of an id's spine: follow
first components until a node whose head is a raw string (the fingerprint
`digest([project, name])`) appears. -/
def flowOf : Digest → Digest
  | .cons (.cons (.str a) r) _ => .cons (.str a) r
  | .cons (.cons x r) _ => flowOf (.cons x r)
  | d => d

/-- Ids whose head spine leads to the digest `Fd`. -/
inductive Anchored (Fd : Digest) : Digest → Prop
  | base (rest : Digest) : Anchored Fd (Digest.cons Fd rest)
  | step (d rest : Digest) : Anchored Fd d → Anchored Fd (Digest.cons d rest)

theorem Anchored.isCons {Fd d : Digest} (h : Anchored Fd d)
    {p : String} {q : Digest} (hF : Fd = Digest.cons (Digest.str p) q) :
    ∃ x y r, d = Digest.cons (Digest.cons x y) r := by
  cases h with
  | base rest => exact ⟨Digest.str p, q, rest, by rw [hF]⟩
  | step d' rest hd' =>
    obtain ⟨x, y, r, hxy⟩ := hd'.isCons hF
    exact ⟨Digest.cons x y, r, rest, by rw [hxy]⟩

theorem flowOf_anchored {p : String} {q Fd : Digest}
    (hF : Fd = Digest.cons (Digest.str p) q) :
    ∀ {d : Digest}, Anchored Fd d → flowOf d = Fd := by
  intro d h
  induction h with
  | base rest => rw [hF]; rfl
  | step d' rest hd' ih =>
    obtain ⟨x, y, r, hxy⟩ := hd'.isCons hF
    have hred : flowOf (Digest.cons d' rest) = flowOf d' := by
      rw [hxy]
      rfl
    rw [hred]
    exact ih

theorem anchored_id_one (F : Flow) (t : Nat) :
    Anchored (flow_fp F) (id_one F t) :=
  Anchored.base (Digest.cons (Digest.str (F.fp t)) Digest.nil)

theorem anchored_id_two (F : Flow) :
    ∀ (fuel t : Nat), Anchored (flow_fp F) (id_two F fuel t)
  | 0, _ => Anchored.base _
  | _ + 1, _ => Anchored.base _

theorem anchored_id_three (F : Flow) {f : Nat → Digest}
    (hf : ∀ t, Anchored (flow_fp F) (f t)) :
    ∀ (fuel t : Nat), Anchored (flow_fp F) (id_three F f fuel t)
  | 0, t => Anchored.step _ _ (hf t)
  | _ + 1, t => Anchored.step _ _ (hf t)

theorem anchored_round_step (F : Flow) {f : Nat → Digest}
    (hf : ∀ t, Anchored (flow_fp F) (f t)) (t : Nat) :
    Anchored (flow_fp F) (round_step F f t) :=
  Anchored.step _ _ (hf t)

theorem anchored_loop_step (F : Flow) :
    ∀ (fuel : Nat) {f : Nat → Digest},
      (∀ t, Anchored (flow_fp F) (f t)) →
      ∀ t, Anchored (flow_fp F) (loop_step F fuel f t)
  | 0, _, hf, t => hf t
  | fuel + 1, f, hf, t => by
    rw [loop_step]
    by_cases hconv : converged F f
    · rw [if_pos hconv]
      exact hf t
    · rw [if_neg hconv]
      by_cases hstop : uniqueCount F (round_step F f) = uniqueCount F f
      · rw [if_pos hstop]
        exact anchored_round_step F hf t
      · rw [if_neg hstop]
        exact anchored_loop_step F fuel (fun u => anchored_round_step F hf u) t

theorem anchored_disambiguate (F : Flow) {f : Nat → Digest}
    (hf : ∀ t, Anchored (flow_fp F) (f t)) (t : Nat) :
    Anchored (flow_fp F) (disambiguate F f t) := by
  rw [disambiguate]
  by_cases hle : (F.tasks.filter (fun u => decide (f u = f t))).length ≤ 1
  · rw [if_pos hle]
    exact hf t
  · rw [if_neg hle]
    exact Anchored.step _ _ (hf t)

theorem anchored_generate (F : Flow) (t : Nat) :
    Anchored (flow_fp F) (generate_task_ids F t) := by
  have h1 : ∀ u, Anchored (flow_fp F) (stage1 F u) := fun u => anchored_id_one F u
  have h2 : ∀ u, Anchored (flow_fp F) (stage2 F u) := by
    intro u
    rw [stage2]
    by_cases hc : converged F (stage1 F)
    · rw [if_pos hc]; exact h1 u
    · rw [if_neg hc]; exact anchored_id_two F F.tasks.length u
  have h3 : ∀ u, Anchored (flow_fp F) (stage3 F u) := by
    intro u
    rw [stage3]
    by_cases hc : converged F (stage2 F)
    · rw [if_pos hc]; exact h2 u
    · rw [if_neg hc]; exact anchored_id_three F h2 F.tasks.length u
  have h4 : ∀ u, Anchored (flow_fp F) (stage4 F u) := by
    intro u
    rw [stage4]
    by_cases hc : converged F (stage3 F)
    · rw [if_pos hc]; exact h3 u
    · rw [if_neg hc]; exact anchored_loop_step F F.tasks.length h3 u
  rw [generate_task_ids, stage5]
  by_cases hc : converged F (stage4 F)
  · rw [if_pos hc]; exact h4 t
  · rw [if_neg hc]; exact anchored_disambiguate F h4 t

theorem flow_fp_inj {F G : Flow} (h : flow_fp F = flow_fp G) :
    F.project = G.project ∧ F.name = G.name := by
  simpa [flow_fp, digest, Digest.cons.injEq, Digest.str.injEq] using h

/-- Claim C4: changing a flow's name (or project) changes every task id — the
id sets of the two flows are disjoint. -/
theorem claim_C4 (F G : Flow) (hdiff : F.name ≠ G.name ∨ F.project ≠ G.project) :
    ∀ t ∈ F.tasks, generate_task_ids F t ∉ G.tasks.map (generate_task_ids G) := by
  intro t _ hmem
  obtain ⟨u, _, hequ⟩ := List.mem_map.mp hmem
  have hFf : flowOf (generate_task_ids F t) = flow_fp F :=
    flowOf_anchored rfl (anchored_generate F t)
  have hGf : flowOf (generate_task_ids G u) = flow_fp G :=
    flowOf_anchored rfl (anchored_generate G u)
  rw [hequ, hFf] at hGf
  rcases hdiff with h | h
  · exact h (flow_fp_inj hGf).2
  · exact h (flow_fp_inj hGf).1

def nameFlowA : Flow :=
  { project := "p", name := "n", version := "1", tasks := [0, 1],
    edges := [(0, 1)], fp := fun _ => "" }

def nameFlowB : Flow :=
  { project := "p", name := "another flow name", version := "1",
    tasks := [0, 1], edges := [(0, 1)], fp := fun _ => "" }

theorem claim_C4_witness :
    (nameFlowA.name ≠ nameFlowB.name ∨ nameFlowA.project ≠ nameFlowB.project) ∧
    (0 : Nat) ∈ nameFlowA.tasks ∧
    generate_task_ids nameFlowA 0 ∉ nameFlowB.tasks.map (generate_task_ids nameFlowB) :=
  ⟨Or.inl (by decide), by decide,
    claim_C4 nameFlowA nameFlowB (Or.inl (by decide)) 0 (by decide)⟩

/-!
## Claim C5: locality of change in the chain `x1 → … → x7`

Task `k` stands for `xk`; renaming a task is modelled as changing its
self-fingerprint.  Under the specification's step formulas, renaming `x5`
invalidates the ids of `x5`, `x6`, `x7` in *both* scenarios — also when `x6`
is uniquely named — because step 2 recomputes every task's id from its
upstream ids unconditionally (and §8 invariant 6 says a change propagates to
all downstream descendants).  Exactly 4 id values overlap in each case.
-/

def chainFlow7 : Flow :=
  { project := "p", name := "n", version := "1",
    tasks := [1, 2, 3, 4, 5, 6, 7],
    edges := [(1, 2), (2, 3), (3, 4), (4, 5), (5, 6), (6, 7)],
    fp := fun _ => "" }

def chainFlow7_renamed : Flow :=
  { project := "p", name := "n", version := "1",
    tasks := [1, 2, 3, 4, 5, 6, 7],
    edges := [(1, 2), (2, 3), (3, 4), (4, 5), (5, 6), (6, 7)],
    fp := fun t => if t = 5 then "x5-renamed" else "" }

def chainFlow7u : Flow :=
  { project := "p", name := "n", version := "1",
    tasks := [1, 2, 3, 4, 5, 6, 7],
    edges := [(1, 2), (2, 3), (3, 4), (4, 5), (5, 6), (6, 7)],
    fp := fun t => if t = 6 then "x6-renamed" else "" }

def chainFlow7u_renamed : Flow :=
  { project := "p", name := "n", version := "1",
    tasks := [1, 2, 3, 4, 5, 6, 7],
    edges := [(1, 2), (2, 3), (3, 4), (4, 5), (5, 6), (6, 7)],
    fp := fun t => if t = 5 then "x5-renamed" else if t = 6 then "x6-renamed" else "" }

/-- Refutation of claim C5's second half: when `x6` is already uniquely
named, renaming `x5` still changes `x6`'s id (and `x7`'s), and only 4 — not
6 — id values overlap between the old and new mappings. -/
theorem claim_C5_counterexample :
    ((chainFlow7u.tasks.map (generate_task_ids chainFlow7u)).filter
        (fun v => decide (v ∈ chainFlow7u_renamed.tasks.map
          (generate_task_ids chainFlow7u_renamed)))).length = 4 ∧
    generate_task_ids chainFlow7u 6 ≠ generate_task_ids chainFlow7u_renamed 6 ∧
    (4 : Nat) ≠ 6 := by
  exact ⟨by decide, by decide, by decide⟩

/-- Claim C5 as amended: in the chain `x1→…→x7` of identical tasks, renaming
`x5` changes the ids of exactly `x5`, `x6`, `x7` and preserves `x1..x4`
(exactly 4 id values overlap), and the same holds when `x6` already has a
unique name — the change still propagates to the descendants `x6`, `x7`, and
again exactly 4 id values overlap. -/
theorem claim_C5 :
    ((∀ t ∈ [1, 2, 3, 4], generate_task_ids chainFlow7 t
        = generate_task_ids chainFlow7_renamed t) ∧
      (∀ t ∈ [5, 6, 7], generate_task_ids chainFlow7 t
        ≠ generate_task_ids chainFlow7_renamed t) ∧
      ((chainFlow7.tasks.map (generate_task_ids chainFlow7)).filter
        (fun v => decide (v ∈ chainFlow7_renamed.tasks.map
          (generate_task_ids chainFlow7_renamed)))).length = 4) ∧
    ((∀ t ∈ [1, 2, 3, 4], generate_task_ids chainFlow7u t
        = generate_task_ids chainFlow7u_renamed t) ∧
      (∀ t ∈ [5, 6, 7], generate_task_ids chainFlow7u t
        ≠ generate_task_ids chainFlow7u_renamed t) ∧
      ((chainFlow7u.tasks.map (generate_task_ids chainFlow7u)).filter
        (fun v => decide (v ∈ chainFlow7u_renamed.tasks.map
          (generate_task_ids chainFlow7u_renamed)))).length = 4) := by
  exact ⟨⟨by decide, by decide, by decide⟩, ⟨by decide, by decide, by decide⟩⟩

/-!
## Registry hook (claim C8)

Modelled from the spec (§4.5): the registry implementation
(`prefect.build.registry`) is not among the shipped sources.  A registered
flow is stored as a first-order record (fingerprints as an explicit table —
§9 note 2 prescribes flow equality as equality of the identifying data, not
deep task-object identity); the self-describing serialized byte string is
modelled as a digest tree, and deserialization merges into the current
registry.
-/

/-- A flow as stored and serialized by the registry. -/
structure FlowRec where
  project : String
  name : String
  version : String
  tasks : List Nat
  fps : List (Nat × String)
  edges : List (Nat × Nat)
deriving DecidableEq

/-- The process-wide registry: `(project, name, version) → flow`. -/
abbrev Registry := List ((String × String × String) × FlowRec)

/-- Modelled from the spec: `register_flow` — insert under the flow's key;
on a duplicate key keep the first registration and report a warning. -/
def register_flow (R : Registry) (f : FlowRec) : Registry × Bool :=
  if (R.lookup (f.project, f.name, f.version)).isSome then (R, true)
  else (R ++ [((f.project, f.name, f.version), f)], false)

/-- Modelled from the spec: `load_flow` — `none` models `NotFound`. -/
def load_flow (R : Registry) (p n v : String) : Option FlowRec :=
  R.lookup (p, n, v)

def encList (enc : α → Digest) (l : List α) : Digest := digest (l.map enc)

def encPairNS (p : Nat × String) : Digest := digest [natD p.1, Digest.str p.2]

def encPairNN (p : Nat × Nat) : Digest := digest [natD p.1, natD p.2]

def encFlowRec (f : FlowRec) : Digest :=
  digest [Digest.str f.project, Digest.str f.name, Digest.str f.version,
    encList natD f.tasks, encList encPairNS f.fps, encList encPairNN f.edges]

def encEntry (e : (String × String × String) × FlowRec) : Digest :=
  digest [Digest.str e.1.1, Digest.str e.1.2.1, Digest.str e.1.2.2, encFlowRec e.2]

/-- Modelled from the spec: `serialize_registry` — snapshot all registered
flows into a self-describing byte string. -/
def serialize_registry (R : Registry) : Digest := encList encEntry R

def decNat : Digest → Option Nat
  | .nil => some 0
  | .cons .nil d => (decNat d).map (· + 1)
  | _ => none

def decPairNS : Digest → Option (Nat × String)
  | .cons a (.cons (.str s) .nil) => (decNat a).map (fun n => (n, s))
  | _ => none

def decPairNN : Digest → Option (Nat × Nat)
  | .cons a (.cons b .nil) =>
    match decNat a, decNat b with
    | some m, some n => some (m, n)
    | _, _ => none
  | _ => none

def decListD (dec : Digest → Option α) : Digest → Option (List α)
  | .nil => some []
  | .cons a d =>
    match dec a, decListD dec d with
    | some x, some xs => some (x :: xs)
    | _, _ => none
  | .str _ => none

def decFlowRec : Digest → Option FlowRec
  | .cons (.str p) (.cons (.str n) (.cons (.str v)
      (.cons td (.cons fd (.cons ed .nil))))) =>
    match decListD decNat td, decListD decPairNS fd, decListD decPairNN ed with
    | some ts, some fps, some es => some ⟨p, n, v, ts, fps, es⟩
    | _, _, _ => none
  | _ => none

def decEntry : Digest → Option ((String × String × String) × FlowRec)
  | .cons (.str p) (.cons (.str n) (.cons (.str v) (.cons fd .nil))) =>
    (decFlowRec fd).map (fun f => ((p, n, v), f))
  | _ => none

/-- Modelled from the spec: `load_serialized_registry` — decode the snapshot
and merge it into the current registry; `none` models
`CorruptSerializedRegistry`. -/
def load_serialized_registry (d : Digest) (R : Registry) : Option Registry :=
  (decListD decEntry d).map (fun es => R ++ es)

theorem decNat_encNat : ∀ n : Nat, decNat (natD n) = some n
  | 0 => rfl
  | n + 1 => by simp [natD, decNat, decNat_encNat n]

theorem decPairNS_enc (p : Nat × String) : decPairNS (encPairNS p) = some p := by
  simp [encPairNS, digest, decPairNS, decNat_encNat]

theorem decPairNN_enc (p : Nat × Nat) : decPairNN (encPairNN p) = some p := by
  simp [encPairNN, digest, decPairNN, decNat_encNat]

theorem decListD_encList {dec : Digest → Option α} {enc : α → Digest}
    (h : ∀ x, dec (enc x) = some x) : ∀ l, decListD dec (encList enc l) = some l
  | [] => rfl
  | x :: l => by
    have hrest : decListD dec (encList enc l) = some l := decListD_encList h l
    show decListD dec (Digest.cons (enc x) (encList enc l)) = some (x :: l)
    simp [decListD, h x, hrest]

theorem decFlowRec_enc (f : FlowRec) : decFlowRec (encFlowRec f) = some f := by
  cases f
  simp [encFlowRec, digest, decFlowRec, decListD_encList decNat_encNat,
    decListD_encList decPairNS_enc, decListD_encList decPairNN_enc]

theorem decEntry_enc (e : (String × String × String) × FlowRec) :
    decEntry (encEntry e) = some e := by
  obtain ⟨⟨p, n, v⟩, f⟩ := e
  simp [encEntry, digest, decEntry, decFlowRec_enc]

/-- Claim C8: loading the serialization of a registry state into a cleared
registry restores it — every registered flow is present again and
`load_flow` returns the flow that was registered. -/
theorem claim_C8 (R : Registry) :
    load_serialized_registry (serialize_registry R) [] = some R ∧
    ∀ (p n v : String) (f : FlowRec), load_flow R p n v = some f →
      ∀ R' : Registry, load_serialized_registry (serialize_registry R) [] = some R' →
        load_flow R' p n v = some f := by
  have h : load_serialized_registry (serialize_registry R) [] = some R := by
    simp [load_serialized_registry, serialize_registry,
      decListD_encList decEntry_enc]
  refine ⟨h, ?_⟩
  intro p n v f hf R' hR'
  rw [h] at hR'
  cases hR'
  exact hf

def flowRec1 : FlowRec :=
  { project := "p", name := "flow1", version := "1", tasks := [0, 1],
    fps := [(0, "a"), (1, "b")], edges := [(0, 1)] }

def flowRec2 : FlowRec :=
  { project := "p", name := "flow2", version := "1", tasks := [0],
    fps := [(0, "c")], edges := [] }

/-- A registry holding two registered flows. -/
def reg2 : Registry := (register_flow (register_flow [] flowRec1).1 flowRec2).1

theorem claim_C8_witness :
    load_serialized_registry (serialize_registry reg2) [] = some reg2 ∧
    load_flow reg2 ("p") ("flow1") ("1") = some flowRec1 ∧
    ∀ R' : Registry, load_serialized_registry (serialize_registry reg2) [] = some R' →
      load_flow R' ("p") ("flow1") ("1") = some flowRec1 :=
  ⟨(claim_C8 reg2).1, by decide,
    (claim_C8 reg2).2 ("p") ("flow1") ("1") flowRec1 (by decide)⟩

/-!
## Flow-run HTTP handlers (claims C9, C10)

Embedded from `src/prefect/orion/api/flow_runs.py`.  The ORM layer
(`prefect.orion.models.flow_runs`) is an external collaborator that is not
among the shipped sources; its session is modelled as a list of stored flow
runs, and — following the handler's own comments — the models-layer insert
raises `IntegrityError` exactly when a uniqueness constraint is violated:
the primary key on `id`, or the `(flow_id, idempotency_key)` idempotency
constraint. -/

structure FlowRun where
  id : Nat
  flow_id : Nat
  idempotency_key : Option String
deriving DecidableEq

abbrev DB := List FlowRun

inductive CreateError where
  | valueError : CreateError
deriving DecidableEq

/-- Modelled from the spec: `models.flow_runs.create_flow_run` — inserts the
run, failing with `IntegrityError` (`Except.error`) when the primary key or
the `(flow_id, idempotency_key)` uniqueness constraint is violated. -/
def models_create_flow_run (db : DB) (fr : FlowRun) : Except Unit (DB × FlowRun) :=
  if db.any (fun r => r.id == fr.id) ||
      (fr.idempotency_key.isSome &&
        db.any (fun r => r.flow_id == fr.flow_id
          && r.idempotency_key == fr.idempotency_key)) then
    Except.error ()
  else Except.ok (db ++ [fr], fr)

/-- Handler `create_flow_run` (`src/prefect/orion/api/flow_runs.py` lines 17–52):
a successful insert responds 201 with the new run; on an integrity error
the nested transaction is rolled back (the session is left unchanged) and a
stored run with the same `(flow_id, idempotency_key)` is returned (default
status 200) — if none exists, a `ValueError` is raised. -/
def create_flow_run (db : DB) (fr : FlowRun) : DB × Except CreateError (FlowRun × Nat) :=
  match models_create_flow_run db fr with
  | Except.ok (db', r) => (db', Except.ok (r, 201))
  | Except.error _ =>
    match db.find? (fun r => r.flow_id == fr.flow_id
        && r.idempotency_key == fr.idempotency_key) with
    | some r => (db, Except.ok (r, 200))
    | none => (db, Except.error CreateError.valueError)

/-- Handler `read_flow_run` (`flow_runs.py` lines 55–68): 404 exactly when no flow
run has the requested id. -/
def read_flow_run (db : DB) (i : Nat) : Except Nat FlowRun :=
  match db.find? (fun r => r.id == i) with
  | some r => Except.ok r
  | none => Except.error 404

/-- Handler `delete_flow_run` (`flow_runs.py` lines 85–98): deletes the run and
responds 204, or responds 404 when no run has the requested id. -/
def delete_flow_run (db : DB) (i : Nat) : DB × Except Nat Nat :=
  if db.any (fun r => r.id == i) then
    (db.filter (fun r => !(r.id == i)), Except.ok 204)
  else (db, Except.error 404)

/-- Claim C9: `create_flow_run` is idempotent on `(flow_id, idempotency_key)`
— when the insert raises an integrity error the handler returns the stored
run with the same pair and leaves the session untouched; only when no such
run exists does it raise `ValueError`; a fresh successful insert responds
201. -/
theorem claim_C9 (db : DB) (fr : FlowRun) :
    (models_create_flow_run db fr = Except.error () →
      (∃ r ∈ db, r.flow_id = fr.flow_id ∧ r.idempotency_key = fr.idempotency_key) →
      ∃ r, create_flow_run db fr = (db, Except.ok (r, 200)) ∧ r ∈ db ∧
        r.flow_id = fr.flow_id ∧ r.idempotency_key = fr.idempotency_key) ∧
    (models_create_flow_run db fr = Except.error () →
      (∀ r ∈ db, ¬(r.flow_id = fr.flow_id ∧ r.idempotency_key = fr.idempotency_key)) →
      create_flow_run db fr = (db, Except.error CreateError.valueError)) ∧
    (∀ (db' : DB) (r : FlowRun), models_create_flow_run db fr = Except.ok (db', r) →
      create_flow_run db fr = (db', Except.ok (r, 201)) ∧ db' = db ++ [fr] ∧ r = fr) := by
  refine ⟨?_, ?_, ?_⟩
  · intro hfail hex
    have hsome : (db.find? (fun r => r.flow_id == fr.flow_id
        && r.idempotency_key == fr.idempotency_key)).isSome := by
      rw [List.find?_isSome]
      obtain ⟨r, hr, h1, h2⟩ := hex
      exact ⟨r, hr, by simp [h1, h2]⟩
    obtain ⟨r, hr⟩ := Option.isSome_iff_exists.mp hsome
    have hp := List.find?_some hr
    simp only [Bool.and_eq_true, beq_iff_eq] at hp
    refine ⟨r, ?_, List.mem_of_find?_eq_some hr, hp.1, hp.2⟩
    simp only [create_flow_run, hfail, hr]
  · intro hfail hnone
    have hfind : db.find? (fun r => r.flow_id == fr.flow_id
        && r.idempotency_key == fr.idempotency_key) = none := by
      rw [List.find?_eq_none]
      intro r hr
      simp only [Bool.and_eq_true, beq_iff_eq, not_and]
      intro h1 h2
      exact hnone r hr ⟨h1, h2⟩
    simp only [create_flow_run, hfail, hfind]
  · intro db' r hok
    have hok' : db' = db ++ [fr] ∧ r = fr := by
      rw [models_create_flow_run] at hok
      split at hok
      · exact absurd hok (by simp)
      · simp only [Except.ok.injEq, Prod.mk.injEq] at hok
        exact ⟨hok.1.symm, hok.2.symm⟩
    refine ⟨?_, hok'.1, hok'.2⟩
    simp only [create_flow_run, hok]

def sampleRun : FlowRun := { id := 1, flow_id := 7, idempotency_key := some ("k") }

def sampleDB : DB := [sampleRun]

def sampleCreate : FlowRun := { id := 2, flow_id := 7, idempotency_key := some ("k") }

theorem claim_C9_witness :
    models_create_flow_run sampleDB sampleCreate = Except.error () ∧
    (∃ r ∈ sampleDB, r.flow_id = sampleCreate.flow_id ∧
      r.idempotency_key = sampleCreate.idempotency_key) ∧
    ∃ r, create_flow_run sampleDB sampleCreate = (sampleDB, Except.ok (r, 200)) ∧
      r ∈ sampleDB ∧ r.flow_id = sampleCreate.flow_id ∧
      r.idempotency_key = sampleCreate.idempotency_key :=
  ⟨rfl, ⟨sampleRun, by decide, by decide, by decide⟩,
    (claim_C9 sampleDB sampleCreate).1 rfl
      ⟨sampleRun, by decide, by decide, by decide⟩⟩

/-- Claim C10: `read_flow_run` and `delete_flow_run` respond 404 exactly when
no flow run with the given id exists; when one exists, `read_flow_run`
returns a stored run with that id, and `delete_flow_run` removes the run and
responds 204 — neither silently succeeds on a missing id. -/
theorem claim_C10 (db : DB) (i : Nat) :
    (read_flow_run db i = Except.error 404 ↔ ∀ r ∈ db, r.id ≠ i) ∧
    (∀ r, read_flow_run db i = Except.ok r → r ∈ db ∧ r.id = i) ∧
    ((delete_flow_run db i).2 = Except.error 404 ↔ ∀ r ∈ db, r.id ≠ i) ∧
    ((∀ r ∈ db, r.id ≠ i) → delete_flow_run db i = (db, Except.error 404)) ∧
    ((∃ r ∈ db, r.id = i) →
      (delete_flow_run db i).2 = Except.ok 204 ∧
      ∀ r ∈ (delete_flow_run db i).1, r.id ≠ i) := by
  have hany : (db.any (fun r => r.id == i) = true) ↔ ∃ r ∈ db, r.id = i := by
    simp [List.any_eq_true]
  refine ⟨?_, ?_, ?_, ?_, ?_⟩
  · rcases hfind : db.find? (fun r => r.id == i) with _ | r
    · simp only [read_flow_run, hfind]
      rw [List.find?_eq_none] at hfind
      simp only [beq_iff_eq] at hfind
      simpa using hfind
    · simp only [read_flow_run, hfind]
      constructor
      · intro h
        exact absurd h (by simp)
      · intro h
        have := List.find?_some hfind
        simp only [beq_iff_eq] at this
        exact absurd this (h r (List.mem_of_find?_eq_some hfind))
  · intro r hr
    rcases hfind : db.find? (fun r => r.id == i) with _ | r'
    · simp [read_flow_run, hfind] at hr
    · simp only [read_flow_run, hfind, Except.ok.injEq] at hr
      subst hr
      have := List.find?_some hfind
      simp only [beq_iff_eq] at this
      exact ⟨List.mem_of_find?_eq_some hfind, this⟩
  · by_cases h : db.any (fun r => r.id == i) = true
    · simp only [delete_flow_run, if_pos h]
      obtain ⟨r, hr, hid⟩ := hany.mp h
      constructor
      · intro hc
        exact absurd hc (by simp)
      · intro hc
        exact absurd hid (hc r hr)
    · simp only [delete_flow_run, if_neg h]
      have : ∀ r ∈ db, r.id ≠ i := by
        intro r hr hc
        exact h (hany.mpr ⟨r, hr, hc⟩)
      simpa using this
  · intro hnone
    have h : ¬ db.any (fun r => r.id == i) = true := by
      intro hc
      obtain ⟨r, hr, hid⟩ := hany.mp hc
      exact hnone r hr hid
    simp only [delete_flow_run, if_neg h]
  · intro hex
    have h : db.any (fun r => r.id == i) = true := hany.mpr hex
    simp only [delete_flow_run, if_pos h]
    refine ⟨by trivial, ?_⟩
    intro r hr
    have := List.of_mem_filter hr
    simpa using this

theorem claim_C10_witness :
    ((∃ r ∈ sampleDB, r.id = 1) ∧
      (delete_flow_run sampleDB 1).2 = Except.ok 204 ∧
      ∀ r ∈ (delete_flow_run sampleDB 1).1, r.id ≠ 1) ∧
    (read_flow_run sampleDB 2 = Except.error 404 ↔ ∀ r ∈ sampleDB, r.id ≠ 2) :=
  ⟨⟨⟨sampleRun, by decide, by decide⟩,
    (claim_C10 sampleDB 1).2.2.2.2 ⟨sampleRun, by decide, by decide⟩⟩,
    (claim_C10 sampleDB 2).1⟩

end Prefect
